import Mathlib

/-!
Verification development for the polish-cli file-organization pipeline.

This file gives a shallow embedding, in Lean 4, of the pipeline modules of the
repository (FileProcessor, FileScanner, ClaudeService, MarkdownGenerator,
ContentExtractor) and proves properties of the embedded definitions.

Modelling conventions:
* TypeScript strings are Lean `String`s; character-level JS operations
  (`toLowerCase`, `replace`, `split`, `substring`) are modelled on `String.data`
  character lists with the same left-to-right semantics as the JS originals.
* JS numbers used as byte counts / indices are `Nat`; tag confidences
  (0.0 .. 1.0 literals in the source) are `ℚ`.
* `async` I/O calls (`fs.readFile`, `pdf-parse`, `mammoth`, `sharp`, `readdir`,
  `new Date()`) are oracles collected in environment structures; a function that
  can throw is modelled with `Except String`.  Filesystem mutations performed by
  the engine are reified as an explicit effect list.
* `Array.prototype.sort` is stable per the ECMAScript specification; it is
  modelled by `List.insertionSort`, which is stable for the comparator relation.
-/

namespace Polish

/-- File types of the `FileType` enum (`src/types/index.ts`); the enum's string
values are the lowercase type names, recovered by `fileTypeStr`. -/
inductive FileType where
  | document | image | code | data | archive | media | unknown
deriving DecidableEq, Repr

/-- The string value carried by each `FileType` enum member. -/
def fileTypeStr : FileType → String
  | .document => "document"
  | .image => "image"
  | .code => "code"
  | .data => "data"
  | .archive => "archive"
  | .media => "media"
  | .unknown => "unknown"

/-- A JS `Date` as the pipeline observes it: the fields are the values returned
by the `getFullYear`/`getMonth`/`toISOString`/`toLocaleDateString` methods. -/
structure JSDate where
  year : Nat
  /-- `getMonth()` is 0-based. -/
  monthIndex : Nat
  iso : String
  locale : String
deriving DecidableEq, Repr

/-- `FileInfo` record produced by the scanner (`src/types/index.ts`). -/
structure FileInfo where
  path : String
  name : String
  extension : String
  size : Nat
  createdAt : JSDate
  modifiedAt : JSDate
  type : FileType
deriving DecidableEq, Repr

/-- `TagSuggestion` returned by `ClaudeService.suggestTags`. -/
structure TagSuggestion where
  tag : String
  confidence : ℚ
  source : String
deriving DecidableEq, Repr

/-- `CategorySuggestion` returned by `ClaudeService.suggestCategory`. -/
structure CategorySuggestion where
  category : String
  confidence : ℚ
  reasoning : String
deriving DecidableEq, Repr

/-- The frontmatter object built by `FileProcessor.processFile` /
`processArchiveRecursively`.  The archive-summary path adds the
`archiveType` / `extractedFiles` keys, absent (`none`) on the ordinary path. -/
structure Frontmatter where
  title : String
  originalFile : String
  sourceLocation : String
  fileType : String
  archiveType : Option String
  extractedFiles : Option Nat
  created : String
  processed : String
  tags : List String
deriving DecidableEq, Repr

/-- `ProcessedFile` output record. -/
structure ProcessedFile where
  original : FileInfo
  markdownPath : String
  originalNewPath : String
  content : String
  frontmatter : Frontmatter
  tags : List String
  category : String
deriving DecidableEq, Repr

/-- One entry of the `failed` list: `(file, error message)`. -/
structure FailedFile where
  file : FileInfo
  error : String
deriving DecidableEq, Repr

/-- The `summary` block of an `OrganizationResult`. -/
structure Summary where
  total : Nat
  successful : Nat
  failed : Nat
  duration : Nat
deriving DecidableEq, Repr

/-- `OrganizationResult` built by `FileProcessor.processFiles`. -/
structure OrganizationResult where
  processed : List ProcessedFile
  failed : List FailedFile
  summary : Summary
deriving DecidableEq, Repr

/-- Vault folder names (`config.vault.structure`); `structure` is a Lean
keyword, hence the primed field name. -/
structure VaultStructure where
  documents : String
  media : String
  code : String
  references : String
deriving DecidableEq, Repr

/-- `config.vault`. -/
structure VaultConfig where
  path : String
  structure' : VaultStructure
deriving DecidableEq, Repr

/-- `config.originals`. -/
structure OriginalsConfig where
  path : String
  createYearFolders : Bool
  organizationStyle : String
deriving DecidableEq, Repr

/-- `config.tagging` (only the field the engine reads). -/
structure TaggingConfig where
  maxTags : Nat
deriving DecidableEq, Repr

/-- The slice of `Config` consumed by the processing pipeline. -/
structure Config where
  vault : VaultConfig
  originals : OriginalsConfig
  tagging : TaggingConfig
deriving DecidableEq, Repr

/-- `ProcessOptions` (the `onProgress` callback is observational and omitted). -/
structure ProcessOptions where
  dryRun : Bool
  copy : Bool
  batchSize : Nat
deriving DecidableEq, Repr

/-! ### JS string primitives -/

/-- JS `String.prototype.toLowerCase` (ASCII fragment, which is all the
source ever feeds it). -/
def jsToLower (s : String) : String := (s.data.map Char.toLower).asString

/-- JS `Array.prototype.join(sep)`. -/
def joinSep (sep : String) : List String → String
  | [] => ""
  | [x] => x
  | x :: xs => x ++ sep ++ joinSep sep xs

/-- Split a character list at every character satisfying `p`
(JS `String.prototype.split` with a single-character separator class). -/
def splitP (p : Char → Bool) : List Char → List (List Char)
  | [] => [[]]
  | c :: cs =>
    if p c then [] :: splitP p cs
    else
      match splitP p cs with
      | [] => [[c]]
      | t :: ts => (c :: t) :: ts

/-- JS `s.split('/')`. -/
def splitSlash (s : String) : List String := (splitP (· = '/') s.data).map List.asString

/-- JS `String.prototype.substring(0, n)`. -/
def jsSubstringTo (s : String) : Nat → String := fun n => (s.data.take n).asString

/-- JS `String(n).padStart(2, '0')`. -/
def natPad2 (n : Nat) : String :=
  let s := toString n
  if s.length < 2 then "0" ++ s else s

/-- JS `Set.prototype.add` on an insertion-ordered set modelled as a
duplicate-free list. -/
def jsSetAdd (l : List String) (x : String) : List String :=
  if x ∈ l then l else l ++ [x]

/-- JS `[...new Set(xs)]`: deduplicate keeping first occurrences. -/
def jsSetDedup (xs : List String) : List String := xs.foldl jsSetAdd []

/-- JS `String.prototype.startsWith`. -/
def jsStartsWith (s pre : String) : Bool := pre.data.isPrefixOf s.data

/-- JS `a.includes(b)` on strings. -/
def jsIncludes (s sub : String) : Bool := decide (sub.data <:+: s.data)

/-- JSON-quote a scalar for the frontmatter block (`JSON.stringify` on a
string value: double quotes, with backslash/quote/newline escapes). -/
def jsonQuote (s : String) : String :=
  let esc : Char → String := fun c =>
    if c = '\\' then "\\\\"
    else if c = '"' then "\\\""
    else if c = '\n' then "\\n"
    else if c = '\t' then "\\t"
    else String.singleton c
  "\"" ++ String.join (s.data.map esc) ++ "\""

/-! ### ClaudeService (`src/services/ClaudeService.ts`, heuristic stub) -/

/-- `file.name.toLowerCase().replace(/[._-]/g, ' ')`. -/
def jsReplaceDelims (l : List Char) : List Char :=
  l.map fun c => if c = '.' ∨ c = '_' ∨ c = '-' then ' ' else c

/-- `.split(' ')`. -/
def jsSplitSpace (l : List Char) : List (List Char) := splitP (· = ' ') l

/-- The `nameWords` computation of `suggestTags`: lowercase the file name,
replace `.`/`_`/`-` by spaces, split on spaces and keep tokens strictly longer
than 3 characters. -/
def nameWords (name : String) : List String :=
  ((jsSplitSpace (jsReplaceDelims (jsToLower name).data)).map List.asString).filter
    (fun w => w.length > 3)

/-- The `topic/<word>` candidate `suggestTags` emits per filename token:
confidence 0.7, source `filename`. -/
def mkTopicTag (w : String) : TagSuggestion := ⟨"topic/" ++ w, 7/10, "filename"⟩

/-- `ClaudeService.suggestTags` (deterministic heuristic; the `content`
argument is unused by the source and omitted). -/
def suggestTags (file : FileInfo) : List TagSuggestion :=
  [⟨"type/" ++ fileTypeStr file.type, 1, "type"⟩,
   ⟨"format/" ++ file.extension, 1, "type"⟩,
   ⟨"date/" ++ toString file.modifiedAt.year ++ "/" ++ natPad2 (file.modifiedAt.monthIndex + 1),
    1, "context"⟩]
  ++ (nameWords file.name).map mkTopicTag

/-- JS `s.charAt(0).toUpperCase() + s.slice(1)`. -/
def capitalize (s : String) : String :=
  match s.data with
  | [] => ""
  | c :: cs => (c.toUpper :: cs).asString

/-- `ClaudeService.suggestCategory`: capitalized file-type name, overridden by
the first existing folder whose lowercase name occurs in the lowercase file
name. -/
def suggestCategory (file : FileInfo) (existingFolders : List String) : CategorySuggestion :=
  let lowerName := jsToLower file.name
  let category :=
    match existingFolders.find? (fun folder => jsIncludes lowerName (jsToLower folder)) with
    | some folder => folder
    | none => capitalize (fileTypeStr file.type)
  ⟨category, 8/10, "Based on file type and name analysis"⟩

/-! ### FileScanner classification (`src/modules/FileScanner.ts`) -/

def scannerDocumentExts : List String := ["pdf", "docx", "doc", "txt", "rtf", "odt"]
def scannerImageExts : List String := ["png", "jpg", "jpeg", "gif", "bmp", "svg", "webp"]
def scannerCodeExts : List String :=
  ["js", "ts", "py", "java", "cpp", "c", "go", "rs", "rb", "php", "swift", "kt"]
def scannerDataExts : List String := ["json", "csv", "xml", "yaml", "yml", "sql"]
def scannerArchiveExts : List String := ["zip", "tar", "gz", "rar", "7z", "bz2"]
def scannerMediaExts : List String := ["mp3", "mp4", "avi", "mov", "wav", "flac"]

/-- `FileScanner.getFileType`: lookup in the map built by `buildExtensionMap`
(`map.set` calls over the six pairwise-disjoint extension lists above),
defaulting to `Unknown`.  The caller lowercases the extension first. -/
def getFileType (extension : String) : FileType :=
  if extension ∈ scannerDocumentExts then .document
  else if extension ∈ scannerImageExts then .image
  else if extension ∈ scannerCodeExts then .code
  else if extension ∈ scannerDataExts then .data
  else if extension ∈ scannerArchiveExts then .archive
  else if extension ∈ scannerMediaExts then .media
  else .unknown

/-! ### FileProcessor.determineFileType (archive-member re-classification) -/

def processorDocumentExts : List String := ["pdf", "doc", "docx", "txt", "md", "rtf", "odt"]
def processorImageExts : List String := ["jpg", "jpeg", "png", "gif", "bmp", "svg", "webp"]
def processorCodeExts : List String :=
  ["js", "ts", "py", "java", "cpp", "c", "go", "rs", "rb", "php"]
def processorDataExts : List String := ["json", "csv", "xml", "yaml", "yml"]
def processorMediaExts : List String := ["mp3", "wav", "mp4", "avi", "mov", "mkv"]
def processorArchiveExts : List String := ["zip", "rar", "tar", "gz", "7z"]

/-- `FileProcessor.determineFileType`: re-derive the type of an extracted
archive member from its extension. -/
def determineFileType (extension : String) : FileType :=
  let ext := jsToLower extension
  if ext ∈ processorDocumentExts then .document
  else if ext ∈ processorImageExts then .image
  else if ext ∈ processorCodeExts then .code
  else if ext ∈ processorDataExts then .data
  else if ext ∈ processorMediaExts then .media
  else if ext ∈ processorArchiveExts then .archive
  else .unknown

/-! ### Tag ranking (`processFile`, lines 78-82 of the processor) -/

/-- Comparator relation of `.sort((a, b) => b.confidence - a.confidence)`:
`a` may come before `b` iff `a.confidence ≥ b.confidence`. -/
def tagGE (a b : TagSuggestion) : Prop := b.confidence ≤ a.confidence

instance : DecidableRel tagGE :=
  fun a b => inferInstanceAs (Decidable (b.confidence ≤ a.confidence))

instance : IsTotal TagSuggestion tagGE :=
  ⟨fun a b => le_total b.confidence a.confidence⟩

instance : IsTrans TagSuggestion tagGE :=
  ⟨fun _ _ _ h1 h2 => le_trans h2 h1⟩

/-- `tagSuggestions.sort((a, b) => b.confidence - a.confidence)` — a stable
descending sort by confidence (ECMAScript `Array.prototype.sort` is stable). -/
def sortTags (l : List TagSuggestion) : List TagSuggestion := l.insertionSort tagGE

/-- `.sort(...).slice(0, maxTags).map(t => t.tag)`. -/
def finalTags (maxTags : Nat) (l : List TagSuggestion) : List String :=
  ((sortTags l).take maxTags).map (·.tag)

/-! ### MarkdownGenerator (`src/modules/MarkdownGenerator.ts`) -/

/-- JS `String.prototype.toUpperCase` (ASCII fragment). -/
def jsToUpper (s : String) : String := (s.data.map Char.toUpper).asString

/-- Render `h` hundredths the way JS prints `parseFloat(x.toFixed(2))` /
`Math.round(x*100)/100`: at most two decimals, trailing zeros dropped. -/
def renderHundredths (h : Nat) : String :=
  let ip := h / 100
  let fr := h % 100
  if fr = 0 then toString ip
  else if fr % 10 = 0 then toString ip ++ "." ++ toString (fr / 10)
  else toString ip ++ "." ++ natPad2 fr

/-- `MarkdownGenerator.formatBytes`: repeated division by 1024, unit from
`Bytes/KB/MB/GB`, value `toFixed(2)` with trailing zeros stripped.
`Math.floor(Math.log bytes / Math.log 1024)` is `Nat.log 1024 bytes`; the
round-to-two-decimals is modelled in exact arithmetic (round half up). -/
def formatBytes (bytes : Nat) : String :=
  if bytes = 0 then "0 Bytes"
  else
    let sizes := ["Bytes", "KB", "MB", "GB"]
    let i := Nat.log 1024 bytes
    let h := (bytes * 200 / 1024 ^ i + 1) / 2
    renderHundredths h ++ " " ++ sizes.getD i ""

def markdownLanguages : List (String × String) :=
  [("js", "javascript"), ("ts", "typescript"), ("py", "python"), ("rb", "ruby"),
   ("java", "java"), ("cpp", "cpp"), ("c", "c"), ("cs", "csharp"), ("go", "go"),
   ("rs", "rust"), ("php", "php"), ("swift", "swift"), ("kt", "kotlin")]

/-- `MarkdownGenerator.getLanguageFromExtension`; unknown extensions pass
through verbatim. -/
def getLanguageFromExtension (extension : String) : String :=
  (markdownLanguages.lookup extension).getD extension

/-- Oracle standing in for the JS regex engine used by `extractFunctions`:
given the language and the content, the list of captured function names in
match order.  Only the regex scan itself is abstracted; the per-language
pattern table, the deduplication and the cap stay in the embedding. -/
structure RegexOracle where
  funcMatches : String → String → List String

/-- `MarkdownGenerator.extractFunctions`: run the per-language pattern (only
`javascript`/`typescript`/`python`/`java` have one) and deduplicate with
`[...new Set(functions)]`. -/
def extractFunctions (rx : RegexOracle) (content language : String) : List String :=
  if language ∈ ["javascript", "typescript", "python", "java"] then
    jsSetDedup (rx.funcMatches language content)
  else []

/-- `MarkdownGenerator.generateFrontmatter`: `---`-delimited block, scalars
JSON-quoted, `tags` as a YAML bulleted list, in object-insertion order. -/
def generateFrontmatter (fm : Frontmatter) : String :=
  let scalar := fun (k v : String) => [k ++ ": " ++ jsonQuote v]
  let lines := ["---"]
    ++ scalar "title" fm.title
    ++ scalar "originalFile" fm.originalFile
    ++ scalar "sourceLocation" fm.sourceLocation
    ++ scalar "fileType" fm.fileType
    ++ (match fm.archiveType with | some a => scalar "archiveType" a | none => [])
    ++ (match fm.extractedFiles with | some n => ["extractedFiles: " ++ toString n] | none => [])
    ++ scalar "created" fm.created
    ++ scalar "processed" fm.processed
    ++ ["tags:"] ++ fm.tags.map (fun t => "  - " ++ t)
    ++ ["---\n"]
  joinSep "\n" lines

/-- `MarkdownGenerator.generateImageContent`. -/
def generateImageContent (file : FileInfo) : String :=
  joinSep "\n"
    ["![[" ++ file.name ++ "]]", "", "## Description", "Image file: " ++ file.name, "",
     "## Properties",
     "- **Format**: " ++ jsToUpper file.extension,
     "- **Size**: " ++ formatBytes file.size,
     "- **Modified**: " ++ file.modifiedAt.locale]

/-- `MarkdownGenerator.generateCodeContent`. -/
def generateCodeContent (rx : RegexOracle) (file : FileInfo) (content : Option String) : String :=
  let language := getLanguageFromExtension file.extension
  let sections := ["## Overview", "Source code file written in " ++ language ++ ".", ""]
  let sections := sections ++
    (match content with
     | none => []
     | some c =>
       let lines := (splitP (· = '\n') c.data).map List.asString
       let stats := ["## Statistics",
                     "- **Lines of code**: " ++ toString lines.length,
                     "- **File size**: " ++ formatBytes file.size, ""]
       let functions := extractFunctions rx c language
       let funcSec :=
         if functions.length > 0 then
           ["## Key Functions"] ++ (functions.take 10).map (fun f => "- `" ++ f ++ "`") ++ [""]
         else []
       let preview := ["## Code Preview", "```" ++ language, joinSep "\n" (lines.take 50)]
                      ++ (if lines.length > 50 then ["// ... (truncated)"] else []) ++ ["```"]
       stats ++ funcSec ++ preview)
  joinSep "\n" sections

/-- `MarkdownGenerator.generateDocumentContent`: a "Content" section capped at
5000 characters with an italic truncation notice, or an italic
unable-to-extract notice when the content is `null`. -/
def generateDocumentContent (content : Option String) : String :=
  match content with
  | none => "## Content\n\n*Unable to extract content from this document.*"
  | some c =>
    let sections := ["## Content\n"] ++
      (if c.length > 5000 then [jsSubstringTo c 5000, "\n\n*... (content truncated)*"] else [c])
    joinSep "\n" sections

/-- `MarkdownGenerator.generateDefaultContent` (Data/Media/Archive/Unknown). -/
def generateDefaultContent (file : FileInfo) (content : Option String) : String :=
  let sections := ["## File Information",
                   "- **Type**: " ++ fileTypeStr file.type,
                   "- **Format**: " ++ file.extension,
                   "- **Size**: " ++ formatBytes file.size,
                   "- **Modified**: " ++ file.modifiedAt.locale]
  let sections := sections ++
    (match content with
     | none => []
     | some c =>
       ["", "## Content Preview", "```", jsSubstringTo c 1000]
       ++ (if c.length > 1000 then ["... (truncated)"] else []) ++ ["```"])
  joinSep "\n" sections

/-- `MarkdownGenerator.generateFooter`. -/
def generateFooter (file : FileInfo) : String :=
  "\n---\n*Original file: [" ++ file.name ++ "](file://" ++ file.path ++ ")*"

/-- `MarkdownGenerator.generate`: frontmatter, title heading, type-specific
body, footer, joined by newlines. -/
def generate (rx : RegexOracle) (file : FileInfo) (content : Option String)
    (fm : Frontmatter) : String :=
  let body :=
    match file.type with
    | .image => generateImageContent file
    | .code => generateCodeContent rx file content
    | .document => generateDocumentContent content
    | _ => generateDefaultContent file content
  joinSep "\n" [generateFrontmatter fm, "# " ++ fm.title ++ "\n", body, generateFooter file]

/-! ### ContentExtractor (`src/modules/ContentExtractor.ts`) -/

/-- Result of `sharp(path).metadata()`. -/
structure ImageMeta where
  format : String
  width : Nat
  height : Nat
  space : String
  channels : Nat
  exif : Bool
deriving DecidableEq, Repr

/-- An attempted file read: `readF` is `fs.readFile`, `probe` is a file access
performed inside a third-party extraction library (`pdf-parse`, `mammoth`,
`sharp`). -/
inductive IOAct where
  | readF (path : String)
  | probe (path : String)
deriving DecidableEq, Repr

/-- Oracles for the extractor's I/O: `readFile` models `fs.readFile(_, 'utf-8')`
(`error` = thrown exception), `pdfParse`/`mammoth` model the optional parsing
libraries (`error` = import failure or parse throw; the `Option` is
`data.text || null` / `result.value || null`), `sharpMeta` models
`sharp(path).metadata()`. -/
structure ExtractEnv where
  readFile : String → Except String String
  pdfParse : String → Except String (Option String)
  mammoth : String → Except String (Option String)
  sharpMeta : String → Except String ImageMeta

/-- Characters counted by `isTextContent`'s regex
`[\x00-\x08\x0B-\x0C\x0E-\x1F]`. -/
def isControlChar (c : Char) : Bool :=
  c.toNat ≤ 0x08 ∨ c.toNat = 0x0B ∨ c.toNat = 0x0C ∨ (0x0E ≤ c.toNat ∧ c.toNat ≤ 0x1F)

/-- `ContentExtractor.isTextContent`: no control characters at all, or fewer
than 10% of the length (the float literal `0.1` modelled exactly). -/
def isTextContent (content : String) : Bool :=
  let nonPrintable := (content.data.filter isControlChar).length
  nonPrintable = 0 ∨ nonPrintable * 10 < content.length

/-- `extractText`: a raw UTF-8 read whose exception propagates to the caller. -/
def extractTextE (env : ExtractEnv) (file : FileInfo) :
    Except String (Option String) × List IOAct :=
  (match env.readFile file.path with
   | .error e => .error e
   | .ok c => .ok (some c),
   [.readF file.path])

/-- `extractPDF`: read the file, delegate to `pdf-parse`; any failure is caught
and becomes `null`. -/
def extractPDF (env : ExtractEnv) (file : FileInfo) :
    Except String (Option String) × List IOAct :=
  (match env.readFile file.path with
   | .error _ => .ok none
   | .ok _ =>
     match env.pdfParse file.path with
     | .error _ => .ok none
     | .ok t => .ok t,
   [.readF file.path])

/-- `extractDOCX`: delegate to `mammoth.extractRawText({path})`; failures
become `null`. -/
def extractDOCX (env : ExtractEnv) (file : FileInfo) :
    Except String (Option String) × List IOAct :=
  (match env.mammoth file.path with
   | .error _ => .ok none
   | .ok t => .ok t,
   [.probe file.path])

/-- Scan past the first `>` (the tail of a `/<[^>]*>/` match); `none` when the
tag never closes. -/
def dropTag : List Char → Option (List Char)
  | [] => none
  | '>' :: rest => some rest
  | _ :: rest => dropTag rest

theorem dropTag_length : ∀ l r, dropTag l = some r → r.length < l.length := by
  intro l
  induction l with
  | nil => intro r h; simp [dropTag] at h
  | cons c rest ih =>
    intro r h
    by_cases hc : c = '>'
    · subst hc; simp [dropTag] at h; subst h; simp
    · have : dropTag (c :: rest) = dropTag rest := by
        cases rest <;> simp_all [dropTag]
      rw [this] at h
      exact Nat.lt_trans (ih r h) (by simp)

/-- `content.replace(/<[^>]*>/g, '')`. -/
def stripTags : List Char → List Char
  | [] => []
  | c :: rest =>
    if c = '<' then
      match h : dropTag rest with
      | some rest' => stripTags rest'
      | none => c :: stripTags rest
    else c :: stripTags rest
termination_by l => l.length
decreasing_by
  · exact Nat.lt_trans (dropTag_length _ _ h) (by simp)
  · simp
  · simp

/-- JS `\s` on the characters the pipeline can see. -/
def isWS (c : Char) : Bool := c = ' ' ∨ c = '\t' ∨ c = '\n' ∨ c = '\r'

/-- `.replace(/\s+/g, ' ')`. -/
def collapseWS : List Char → List Char
  | [] => []
  | c :: rest =>
    if isWS c then ' ' :: collapseWS (rest.dropWhile isWS)
    else c :: collapseWS rest
termination_by l => l.length
decreasing_by
  · exact Nat.lt_succ_of_le ((List.dropWhile_sublist isWS).length_le)
  · simp

/-- `String.prototype.trim` (over JS whitespace). -/
def trimWS (l : List Char) : List Char :=
  ((l.dropWhile isWS).reverse.dropWhile isWS).reverse

/-- `extractHTML`: read, strip tags, collapse whitespace, trim; failures
become `null`. -/
def extractHTML (env : ExtractEnv) (file : FileInfo) :
    Except String (Option String) × List IOAct :=
  (match env.readFile file.path with
   | .error _ => .ok none
   | .ok c => .ok (some (trimWS (collapseWS (stripTags c.data))).asString),
   [.readF file.path])

/-- `extractODT`: explicitly unimplemented. -/
def extractODT : Except String (Option String) × List IOAct := (.ok none, [])

/-- `extractImage`: structural metadata via `sharp`; probe failure still yields
a minimal format string. -/
def extractImage (env : ExtractEnv) (file : FileInfo) :
    Except String (Option String) × List IOAct :=
  (match env.sharpMeta file.path with
   | .ok m =>
     .ok (some (joinSep "\n"
       ["Image: " ++ file.name,
        "Format: " ++ m.format,
        "Dimensions: " ++ toString m.width ++ "x" ++ toString m.height,
        "Color space: " ++ m.space,
        "Channels: " ++ toString m.channels,
        if m.exif then "Contains EXIF data" else "No EXIF data"]))
   | .error _ =>
     .ok (some ("Image file: " ++ file.name ++ " (" ++ jsToUpper file.extension ++ ")")),
   [.probe file.path])

/-- `ContentExtractor.formatFileSize` (`Math.round(x*100)/100` in exact
arithmetic). -/
def formatFileSize (bytes : Nat) : String :=
  if bytes = 0 then "0 Bytes"
  else
    let i := Nat.log 1024 bytes
    let h := (bytes * 200 / 1024 ^ i + 1) / 2
    renderHundredths h ++ " " ++ ["Bytes", "KB", "MB", "GB"].getD i ""

def mediaTypesTable : List (String × String) :=
  [("mp3", "MP3 Audio"), ("wav", "WAV Audio"), ("flac", "FLAC Audio"),
   ("aac", "AAC Audio"), ("ogg", "OGG Audio"), ("m4a", "M4A Audio"),
   ("mp4", "MP4 Video"), ("mkv", "MKV Video"), ("avi", "AVI Video"),
   ("mov", "QuickTime Video"), ("wmv", "WMV Video"), ("webm", "WebM Video")]

/-- `extractMedia`: filename/type/size/creation-date summary; no decoding. -/
def extractMedia (file : FileInfo) : Except String (Option String) × List IOAct :=
  let ext := jsToLower file.extension
  let mediaType := (mediaTypesTable.lookup ext).getD (jsToUpper ext ++ " Media")
  (.ok (some (joinSep "\n"
    ["Media file: " ++ file.name,
     "Type: " ++ mediaType,
     "Size: " ++ formatFileSize file.size,
     "Created: " ++ file.createdAt.locale])), [])

def archiveTypesTable : List (String × String) :=
  [("zip", "ZIP Archive"), ("rar", "RAR Archive"), ("tar", "TAR Archive"),
   ("gz", "GZIP Archive"), ("7z", "7-Zip Archive"), ("bz2", "BZIP2 Archive")]

/-- `extractArchiveMetadata`: fixed metadata string; contents not inspected. -/
def extractArchiveMetadata (file : FileInfo) : Except String (Option String) × List IOAct :=
  let ext := jsToLower file.extension
  let archiveType := (archiveTypesTable.lookup ext).getD (jsToUpper ext ++ " Archive")
  (.ok (some (joinSep "\n"
    ["Archive: " ++ file.name,
     "Type: " ++ archiveType,
     "Size: " ++ formatFileSize file.size,
     "Note: Archive contents not extracted for security"])), [])

/-- `extractBasic`: raw read plus the binary-detection heuristic; its own
catch converts a read failure to `null`. -/
def extractBasic (env : ExtractEnv) (file : FileInfo) :
    Except String (Option String) × List IOAct :=
  (match env.readFile file.path with
   | .error _ => .ok none
   | .ok c => .ok (if isTextContent c then some c else none),
   [.readF file.path])

/-- `extractDocument`: subtype dispatch on the lowercased extension. -/
def extractDocument (env : ExtractEnv) (file : FileInfo) :
    Except String (Option String) × List IOAct :=
  let ext := jsToLower file.extension
  if ext ∈ ["txt", "md", "markdown", "rtf"] then extractTextE env file
  else if ext = "pdf" then extractPDF env file
  else if ext ∈ ["docx", "doc"] then extractDOCX env file
  else if ext = "odt" then extractODT
  else if ext ∈ ["html", "htm"] then extractHTML env file
  else (.ok none, [])

/-- The `switch (file.type)` body of `ContentExtractor.extract`. -/
def extractDispatch (env : ExtractEnv) (file : FileInfo) :
    Except String (Option String) × List IOAct :=
  match file.type with
  | .document => extractDocument env file
  | .code => extractTextE env file
  | .data => extractTextE env file
  | .image => extractImage env file
  | .media => extractMedia file
  | .archive => extractArchiveMetadata file
  | .unknown => extractBasic env file

def MAX_FILE_SIZE : Nat := 10 * 1024 * 1024

/-- `ContentExtractor.extract`: size ceiling first (50 MiB for image/media,
10 MiB otherwise, rejected with no read attempted), then the type dispatch;
the outer catch degrades any escaping exception to `null`. -/
def extract (env : ExtractEnv) (file : FileInfo) : Option String × List IOAct :=
  let maxSize :=
    if file.type = .image ∨ file.type = .media then 50 * 1024 * 1024 else MAX_FILE_SIZE
  if file.size > maxSize then (none, [])
  else
    let r := extractDispatch env file
    (match r.1 with | .ok v => v | .error _ => none, r.2)

/-! ### Path helpers (`node:path` as used by the processor) -/

/-- Node `path.join` on already-clean arguments (the normalizing form needed
for the archive-extraction guard is `pathJoinNorm` below). -/
def pathJoin (a b : String) : String :=
  if a = "" then b else if b = "" then a else a ++ "/" ++ b

def pathJoin3 (a b c : String) : String := pathJoin (pathJoin a b) c

/-- Node `path.parse(name).name`: the base name without its final extension
(a lone leading dot does not start an extension). -/
def pathParseName (s : String) : String :=
  let parts := (splitP (· = '.') s.data).map List.asString
  if parts.length ≤ 1 then s
  else if parts.length = 2 ∧ parts.headD "" = "" then s
  else joinSep "." parts.dropLast

/-- Node `path.dirname` on the clean paths the processor builds. -/
def pathDirname (s : String) : String :=
  let segs := splitSlash s
  if segs.length ≤ 1 then "." else joinSep "/" segs.dropLast

/-- Collapse runs of underscores (`.replace(/_+/g, '_')`). -/
def collapseUnderscores : List Char → List Char
  | [] => []
  | c :: rest =>
    if c = '_' then '_' :: collapseUnderscores (rest.dropWhile (· = '_'))
    else c :: collapseUnderscores rest
termination_by l => l.length
decreasing_by
  · exact Nat.lt_succ_of_le ((List.dropWhile_sublist (· = '_')).length_le)
  · simp

/-- Modelled from the spec: `sanitizeFilename` of `src/utils/formatting.ts`,
a file absent from the packaged sources (only its unit tests and call sites
are present) — invalid filename characters and whitespace become underscores,
and underscore runs collapse, per `tests/utils/formatting.test.ts`. -/
def sanitizeFilename (s : String) : String :=
  let invalid : Char → Bool := fun c =>
    c = '<' ∨ c = '>' ∨ c = ':' ∨ c = '"' ∨ c = '/' ∨ c = '\\' ∨ c = '|' ∨
    c = '?' ∨ c = '*' ∨ isWS c
  (collapseUnderscores (s.data.map fun c => if invalid c then '_' else c)).asString

/-- Modelled from the spec: `getDatePath` of the missing
`src/utils/formatting.ts` — the current `YYYY/MM` path, month zero-padded,
per its unit test; the current date is the caller's `now` oracle. -/
def getDatePath (now : JSDate) : String :=
  toString now.year ++ "/" ++ natPad2 (now.monthIndex + 1)

/-! ### FileProcessor (`FileProcessor.ts`, the archive-capable revision) -/

/-- `FileProcessor.mapCategoryToVaultFolder`: config-driven folder for the
lowercased category, falling back to the references folder.  (The JS `||`
would also fall back on an empty configured folder name; the engine's configs
use non-empty names.) -/
def mapCategoryToVaultFolder (cfg : Config) (category : String) : String :=
  let l := jsToLower category
  if l = "document" then cfg.vault.structure'.documents
  else if l = "image" then cfg.vault.structure'.media
  else if l = "code" then cfg.vault.structure'.code
  else if l = "media" then cfg.vault.structure'.media
  else cfg.vault.structure'.references

/-- `FileProcessor.getOriginalFilePath`. -/
def getOriginalFilePath (cfg : Config) (now : JSDate) (file : FileInfo)
    (category : String) : String :=
  let basePath := cfg.originals.path
  let basePath :=
    if cfg.originals.createYearFolders then
      pathJoin basePath (toString file.modifiedAt.year)
    else basePath
  let basePath :=
    if cfg.originals.organizationStyle = "type-based" then pathJoin basePath category
    else if cfg.originals.organizationStyle = "date-based" then
      pathJoin basePath (getDatePath now)
    else basePath
  pathJoin basePath file.name

/-- A filesystem mutation performed by the engine (reads are traced by
`IOAct` inside the extractor instead). -/
inductive FSEffect where
  | mkdirp (dir : String)
  | writeFile (path content : String)
  | copyFile (src dst : String)
  | rename (src dst : String)
deriving DecidableEq, Repr

/-- The ambient I/O the per-file pipeline consumes: extractor oracles, the
regex engine, the result of `getExistingVaultFolders` (best-effort `readdir`,
`[]` on failure) and `new Date()`. -/
structure PipelineEnv where
  fs : ExtractEnv
  rx : RegexOracle
  existingFolders : List String
  now : JSDate

/-- `FileProcessor.processFile`, non-archive branch (the archive branch
dispatches to `processArchiveRecursively`, whose summary step is
`processArchiveSummary` below): extract, rank tags, pick category, compute
both destination paths, build frontmatter, render markdown, and — unless
`dryRun` — create directories, write the markdown and copy/rename the
original. -/
def processFile (cfg : Config) (env : PipelineEnv) (file : FileInfo)
    (opts : ProcessOptions) : ProcessedFile × List FSEffect :=
  let content := (extract env.fs file).1
  let tagSuggestions := suggestTags file
  let tags := finalTags cfg.tagging.maxTags tagSuggestions
  let categorySuggestion := suggestCategory file env.existingFolders
  let vaultCategory := mapCategoryToVaultFolder cfg categorySuggestion.category
  let markdownPath :=
    pathJoin3 cfg.vault.path vaultCategory (sanitizeFilename (pathParseName file.name ++ ".md"))
  let originalNewPath := getOriginalFilePath cfg env.now file categorySuggestion.category
  let frontmatter : Frontmatter :=
    { title := pathParseName file.name
      originalFile := "[[file://" ++ originalNewPath ++ "]]"
      sourceLocation := file.path
      fileType := file.extension
      archiveType := none
      extractedFiles := none
      created := file.createdAt.iso
      processed := env.now.iso
      tags := tags }
  let markdownContent := generate env.rx file content frontmatter
  let pf : ProcessedFile :=
    { original := file
      markdownPath := markdownPath
      originalNewPath := originalNewPath
      content := markdownContent
      frontmatter := frontmatter
      tags := tags
      category := categorySuggestion.category }
  let effects :=
    if opts.dryRun then []
    else
      [FSEffect.mkdirp (pathDirname markdownPath),
       FSEffect.mkdirp (pathDirname originalNewPath),
       FSEffect.writeFile markdownPath markdownContent] ++
      (if opts.copy then [FSEffect.copyFile file.path originalNewPath]
       else [FSEffect.rename file.path originalNewPath])
  (pf, effects)

/-- Mutable state of the `processFiles` batch loop: the two result lists and
the two counters, updated together exactly as the source does. -/
structure BatchState where
  processed : List ProcessedFile
  failed : List FailedFile
  successful : Nat
  failedCount : Nat
deriving DecidableEq, Repr

/-- The `for` loop of `FileProcessor.processFiles`.  `step` is
`await this.processFile(file, options)`, a call that either returns a
`ProcessedFile` or throws (`.error` carries the recorded message); the
`onProgress` callback is observational and omitted. -/
def processFilesLoop (step : FileInfo → Except String ProcessedFile) :
    List FileInfo → BatchState → BatchState
  | [], st => st
  | f :: fs, st =>
    let st' :=
      match step f with
      | .ok p =>
        { st with processed := st.processed ++ [p], successful := st.successful + 1 }
      | .error e =>
        { st with failed := st.failed ++ [⟨f, e⟩], failedCount := st.failedCount + 1 }
    processFilesLoop step fs st'

/-- `FileProcessor.processFiles`. -/
def processFiles (step : FileInfo → Except String ProcessedFile)
    (files : List FileInfo) (startTime endTime : Nat) : OrganizationResult :=
  let st := processFilesLoop step files ⟨[], [], 0, 0⟩
  { processed := st.processed
    failed := st.failed
    summary :=
      { total := files.length
        successful := st.successful
        failed := st.failedCount
        duration := endTime - startTime } }

/-! ### Archive handling (`processArchiveRecursively` and helpers) -/

/-- `tag.split('/').pop()`. -/
def lastPathSegment (tag : String) : String :=
  ((splitP (· = '/') tag.data).map List.asString).getLastD ""

/-- Comparator relation of `.sort((a, b) => b.count - a.count)`. -/
def countGE (a b : String × Nat) : Prop := b.2 ≤ a.2

instance : DecidableRel countGE := fun a b => inferInstanceAs (Decidable (b.2 ≤ a.2))

instance : IsTotal (String × Nat) countGE := ⟨fun a b => Nat.le_total b.2 a.2⟩

instance : IsTrans (String × Nat) countGE := ⟨fun _ _ _ h1 h2 => Nat.le_trans h2 h1⟩

/-- `FileProcessor.generateArchiveTags`: the fixed archive tags, a date tag,
plus up to five `contains/<tail>` tags from the most frequent non-type,
non-format child tags, the whole set truncated to `maxTags`. -/
def generateArchiveTags (cfg : Config) (archiveFile : FileInfo)
    (extractedFiles : List ProcessedFile) : List String :=
  let tags :=
    jsSetAdd (jsSetAdd (jsSetAdd [] "type/archive") ("format/" ++ archiveFile.extension))
      "source/expanded"
  let tags := jsSetAdd tags
    ("date/" ++ toString archiveFile.modifiedAt.year ++ "/" ++
      natPad2 (archiveFile.modifiedAt.monthIndex + 1))
  let childTags := extractedFiles.foldl
    (fun acc f => f.tags.foldl
      (fun acc2 t =>
        if ¬ jsStartsWith t "type/" ∧ ¬ jsStartsWith t "format/" then jsSetAdd acc2 t
        else acc2)
      acc)
    []
  let tagCounts := childTags.map fun t =>
    (t, (extractedFiles.filter fun f => t ∈ f.tags).length)
  let top := (tagCounts.insertionSort countGE).take 5
  let tags := top.foldl (fun acc p => jsSetAdd acc ("contains/" ++ lastPathSegment p.1)) tags
  tags.take cfg.tagging.maxTags

/-- The `reduce` of `generateArchiveSummary`: group children by category
(JS object string keys keep insertion order; `file.category || 'unknown'`). -/
def groupByCategory (files : List ProcessedFile) : List (String × List ProcessedFile) :=
  files.foldl
    (fun groups f =>
      let category := if f.category = "" then "unknown" else f.category
      if (groups.lookup category).isSome then
        groups.map fun p => if p.1 = category then (p.1, p.2 ++ [f]) else p
      else groups ++ [(category, [f])])
    []

/-- Node `path.relative(from, to)` restricted to the shapes the engine
produces (`to` under `from`); otherwise `to` is returned unchanged. -/
def pathRelative (base p : String) : String :=
  if jsStartsWith p (base ++ "/") then (p.data.drop (base.length + 1)).asString else p

/-- `.replace(/\.md$/, '')`. -/
def stripMdSuffix (s : String) : String :=
  if ".md".data.isSuffixOf s.data then (s.data.take (s.length - 3)).asString else s

/-- `FileProcessor.generateArchiveSummary`: the summary markdown body listing
the processed children grouped by category. -/
def generateArchiveSummary (cfg : Config) (archiveFile : FileInfo)
    (extractedFiles : List ProcessedFile) : String :=
  let header := ["# Archive: " ++ archiveFile.name, "",
    "This archive contained " ++ toString extractedFiles.length ++
      " files that were extracted and processed:", ""]
  let sections := (groupByCategory extractedFiles).foldl
    (fun acc p =>
      acc ++ ["## " ++ capitalize p.1 ++ " Files (" ++ toString p.2.length ++ ")", ""]
          ++ p.2.map (fun f =>
               "- [[" ++ stripMdSuffix (pathRelative cfg.vault.path f.markdownPath) ++ "|" ++
                 pathParseName f.original.name ++ "]]")
          ++ [""])
    header
  joinSep "\n" sections

/-- The summary-construction tail of `processArchiveRecursively` (lines
219-271): given the recursively processed children, synthesize the archive's
own `ProcessedFile` and its (dry-run-gated) filesystem mutations. -/
def processArchiveSummary (cfg : Config) (env : PipelineEnv) (file : FileInfo)
    (childResults : List ProcessedFile) (opts : ProcessOptions) :
    ProcessedFile × List FSEffect :=
  let archiveContent := generateArchiveSummary cfg file childResults
  let tags := generateArchiveTags cfg file childResults
  let categorySuggestion := suggestCategory file env.existingFolders
  let vaultCategory := mapCategoryToVaultFolder cfg categorySuggestion.category
  let markdownPath :=
    pathJoin3 cfg.vault.path vaultCategory
      (sanitizeFilename (pathParseName file.name ++ "_archive.md"))
  let originalNewPath := getOriginalFilePath cfg env.now file categorySuggestion.category
  let frontmatter : Frontmatter :=
    { title := "Archive: " ++ pathParseName file.name
      originalFile := "[[file://" ++ originalNewPath ++ "]]"
      sourceLocation := file.path
      fileType := file.extension
      archiveType := some "expanded"
      extractedFiles := some childResults.length
      created := file.createdAt.iso
      processed := env.now.iso
      tags := tags }
  let markdownContent := generate env.rx file (some archiveContent) frontmatter
  let pf : ProcessedFile :=
    { original := file
      markdownPath := markdownPath
      originalNewPath := originalNewPath
      content := markdownContent
      frontmatter := frontmatter
      tags := tags
      category := categorySuggestion.category }
  let effects :=
    if opts.dryRun then []
    else
      [FSEffect.mkdirp (pathDirname markdownPath),
       FSEffect.mkdirp (pathDirname originalNewPath),
       FSEffect.writeFile markdownPath markdownContent] ++
      (if opts.copy then [FSEffect.copyFile file.path originalNewPath]
       else [FSEffect.rename file.path originalNewPath])
  (pf, effects)

/-! ### Zip extraction path guard (`FileProcessor.extractArchive`) -/

/-- A zip entry as `unzipper` reports it: its path inside the archive and its
`type` field (absent, `'File'` or `'Directory'`). -/
structure ZipEntry where
  path : String
  entryType : Option String
deriving DecidableEq, Repr

/-- `.replace(/^\/+/, '')`. -/
def stripLeadingSlashes (l : List Char) : List Char := l.dropWhile (· = '/')

/-- `.replace(/\.\./g, '')`: left-to-right removal of non-overlapping `..`
occurrences. -/
def removeDotDot : List Char → List Char
  | [] => []
  | [c] => [c]
  | c :: d :: rest =>
    if c = '.' ∧ d = '.' then removeDotDot rest
    else c :: removeDotDot (d :: rest)

/-- `entry.path.replace(/^\/+/, '').replace(/\.\./g, '')`. -/
def sanitizeEntryPath (s : String) : String :=
  (removeDotDot (stripLeadingSlashes s.data)).asString

/-- One step of Node path normalization over segments of an absolute base:
empty and `.` segments vanish, `..` pops the last kept segment. -/
def normStep (acc : List String) (seg : String) : List String :=
  if seg = "" ∨ seg = "." then acc
  else if seg = ".." then acc.dropLast
  else acc ++ [seg]

def normSegs (segs : List String) : List String := segs.foldl normStep []

/-- Node `path.join(a, b)` as used with the absolute temp directory:
concatenate with a separator and normalize. -/
def pathJoinNorm (a b : String) : String :=
  let s := a ++ "/" ++ b
  (if jsStartsWith s "/" then "/" else "") ++ joinSep "/" (normSegs (splitSlash s))

/-- The `safePath` of the extraction loop:
`path.join(outputDir, entry.path.replace(/^\/+/, '').replace(/\.\./g, ''))`. -/
def safeEntryPath (outputDir entryPath : String) : String :=
  pathJoinNorm outputDir (sanitizeEntryPath entryPath)

/-- The destination paths `FileProcessor.extractArchive` writes: only for
`.zip` with the optional `unzipper` library available, and only for entries
whose `type` is absent or `'File'` (directory entries are skipped). -/
def extractArchiveWritten (unzipperAvailable : Bool) (file : FileInfo)
    (entries : List ZipEntry) (outputDir : String) : List String :=
  if jsToLower file.extension = "zip" then
    if unzipperAvailable then
      (entries.filter fun e => e.entryType = none ∨ e.entryType = some "File").map
        fun e => safeEntryPath outputDir e.path
    else []
  else []

/-! ## Theorems -/

/-- The success outcome of one file in the batch loop. -/
def okOutcome (step : FileInfo → Except String ProcessedFile) (f : FileInfo) :
    Option ProcessedFile :=
  match step f with
  | .ok p => some p
  | .error _ => none

/-- The failure outcome of one file in the batch loop. -/
def errOutcome (step : FileInfo → Except String ProcessedFile) (f : FileInfo) :
    Option FailedFile :=
  match step f with
  | .ok _ => none
  | .error e => some ⟨f, e⟩

theorem processFilesLoop_spec (step : FileInfo → Except String ProcessedFile)
    (fs : List FileInfo) (st : BatchState) :
    processFilesLoop step fs st =
      { processed := st.processed ++ fs.filterMap (okOutcome step)
        failed := st.failed ++ fs.filterMap (errOutcome step)
        successful := st.successful + (fs.filterMap (okOutcome step)).length
        failedCount := st.failedCount + (fs.filterMap (errOutcome step)).length } := by
  induction fs generalizing st with
  | nil => simp [processFilesLoop]
  | cons f fs ih =>
    cases h : step f with
    | ok p =>
      simp [processFilesLoop, h, ih, List.filterMap_cons, okOutcome, errOutcome,
        Nat.add_assoc, Nat.add_comm 1]
    | error e =>
      simp [processFilesLoop, h, ih, List.filterMap_cons, okOutcome, errOutcome,
        Nat.add_assoc, Nat.add_comm 1]

theorem filterMap_outcomes_length (step : FileInfo → Except String ProcessedFile) :
    ∀ fs : List FileInfo,
      (fs.filterMap (okOutcome step)).length + (fs.filterMap (errOutcome step)).length
        = fs.length := by
  intro fs
  induction fs with
  | nil => simp
  | cons f fs ih =>
    cases h : step f with
    | ok p =>
      simp only [List.filterMap_cons, h, okOutcome, errOutcome, List.length_cons,
        List.length]
      omega
    | error e =>
      simp only [List.filterMap_cons, h, okOutcome, errOutcome, List.length_cons,
        List.length]
      omega

/-- C1: every input file of `processFiles` contributes exactly one terminal
outcome — its `okOutcome` appended to `processed` or its `errOutcome` appended
to `failed`, in input order — so `summary.total` is the input length,
`summary.successful` and `summary.failed` are the two list lengths,
`successful + failed = total`, and a throwing file never prevents the later
files from contributing their own outcomes. -/
theorem processFiles_one_outcome_per_file (step : FileInfo → Except String ProcessedFile)
    (files : List FileInfo) (t0 t1 : Nat) :
    (processFiles step files t0 t1).processed = files.filterMap (okOutcome step) ∧
    (processFiles step files t0 t1).failed = files.filterMap (errOutcome step) ∧
    (processFiles step files t0 t1).summary.total = files.length ∧
    (processFiles step files t0 t1).summary.successful
      = (processFiles step files t0 t1).processed.length ∧
    (processFiles step files t0 t1).summary.failed
      = (processFiles step files t0 t1).failed.length ∧
    (processFiles step files t0 t1).processed.length
      + (processFiles step files t0 t1).failed.length = files.length := by
  have h := processFilesLoop_spec step files ⟨[], [], 0, 0⟩
  refine ⟨?_, ?_, ?_, ?_, ?_, ?_⟩ <;>
    simp [processFiles, h, filterMap_outcomes_length]

/-- C2: `dryRun` only gates the filesystem mutations: with the same
environment the returned `ProcessedFile` (paths, rendered content,
frontmatter, tags, category) is identical with and without `dryRun`, and the
dry run performs no mutation at all (no directory creation, no markdown
write, no copy, no rename). -/
theorem processFile_dryRun_frame (cfg : Config) (env : PipelineEnv) (file : FileInfo)
    (copy : Bool) (bs bs' : Nat) :
    (processFile cfg env file ⟨true, copy, bs⟩).1
      = (processFile cfg env file ⟨false, copy, bs'⟩).1 ∧
    (processFile cfg env file ⟨true, copy, bs⟩).2 = [] := by
  exact ⟨rfl, rfl⟩

theorem wrap_cancel (pre suf a b : String)
    (h : pre ++ a ++ suf = pre ++ b ++ suf) : a = b := by
  have hd : pre.data ++ (a.data ++ suf.data) = pre.data ++ (b.data ++ suf.data) := by
    have := congrArg String.data h
    simpa [List.append_assoc] using this
  have h1 : a.data ++ suf.data = b.data ++ suf.data := List.append_cancel_left hd
  have h2 : a.data = b.data := List.append_cancel_right h1
  cases a; cases b; exact congrArg String.mk h2

/-- C8: the frontmatter built for a non-archive file links `originalFile` to
the file's organized destination (`originalNewPath`) and keeps the source path
in the separate `sourceLocation` field; whenever the destination differs from
the source path, `originalFile` is not a link to the source path. -/
theorem processFile_frontmatter_links (cfg : Config) (env : PipelineEnv)
    (file : FileInfo) (opts : ProcessOptions) :
    (processFile cfg env file opts).1.frontmatter.originalFile
      = "[[file://" ++ (processFile cfg env file opts).1.originalNewPath ++ "]]" ∧
    (processFile cfg env file opts).1.frontmatter.sourceLocation = file.path ∧
    (file.path ≠ (processFile cfg env file opts).1.originalNewPath →
      (processFile cfg env file opts).1.frontmatter.originalFile
        ≠ "[[file://" ++ file.path ++ "]]") := by
  refine ⟨rfl, rfl, fun hne heq => hne ?_⟩
  exact (wrap_cancel "[[file://" "]]" _ _ heq).symm

/-- Witness for C8 at a concrete input: the source path and the organized
destination differ, and the frontmatter does not link the source path. -/
theorem processFile_frontmatter_links_witness :
    (processFile
        ⟨⟨"/v", ⟨"Doc", "Media", "Code", "Ref"⟩⟩, ⟨"/orig", false, "type-based"⟩, ⟨5⟩⟩
        ⟨⟨fun _ => .error "io", fun _ => .error "io", fun _ => .error "io",
          fun _ => .error "io"⟩, ⟨fun _ _ => []⟩, [],
          ⟨2024, 2, "2024-03-15T00:00:00.000Z", "3/15/2024"⟩⟩
        ⟨"/src/notes.txt", "notes.txt", "txt", 5,
          ⟨2024, 0, "2024-01-01T00:00:00.000Z", "1/1/2024"⟩,
          ⟨2024, 2, "2024-03-15T00:00:00.000Z", "3/15/2024"⟩, .document⟩
        ⟨true, false, 10⟩).1.frontmatter.originalFile
      ≠ "[[file://" ++ "/src/notes.txt" ++ "]]" := by
  exact (processFile_frontmatter_links _ _ _ _).2.2 (by decide)

/-! ### C4: stable ranking of tag candidates -/

/-- The candidates of a given confidence, in order. -/
def confFilter (c : ℚ) (l : List TagSuggestion) : List TagSuggestion :=
  l.filter fun t => t.confidence = c

theorem orderedInsert_confFilter (a : TagSuggestion) (c : ℚ) :
    ∀ l : List TagSuggestion,
      confFilter c (l.orderedInsert tagGE a)
        = if a.confidence = c then a :: confFilter c l else confFilter c l := by
  intro l
  induction l with
  | nil => by_cases hac : a.confidence = c <;> simp [confFilter, List.orderedInsert, hac]
  | cons b bs ih =>
    by_cases hab : tagGE a b
    · by_cases hac : a.confidence = c <;>
        simp [confFilter, List.orderedInsert, if_pos hab, List.filter_cons, hac]
    · by_cases hbc : b.confidence = c
      · by_cases hac : a.confidence = c
        · exact absurd (le_of_eq (hbc.trans hac.symm)) hab
        · simp [confFilter, List.orderedInsert, if_neg hab, List.filter_cons, hbc, hac] at ih ⊢
          simpa [hac] using ih
      · by_cases hac : a.confidence = c <;>
          · simp [confFilter, List.orderedInsert, if_neg hab, List.filter_cons, hbc, hac] at ih ⊢
            simpa [hac] using ih

theorem sortTags_stable (c : ℚ) : ∀ l, confFilter c (sortTags l) = confFilter c l := by
  intro l
  induction l with
  | nil => rfl
  | cons x xs ih =>
    show confFilter c ((sortTags xs).orderedInsert tagGE x) = _
    rw [orderedInsert_confFilter, ih]
    by_cases hxc : x.confidence = c <;> simp [confFilter, List.filter_cons, hxc]

/-- C4: the final tag list is the stable descending-by-confidence sort of all
candidates cut at `maxTags`: the sort is a permutation, sorted under `tagGE`,
preserves the emission order inside every confidence class, and when more
than `maxTags` candidates exist the final list has exactly `maxTags` entries,
each kept candidate having confidence at least that of every dropped one. -/
theorem processFile_tag_ranking (l : List TagSuggestion) (n : Nat)
    (hn : n < l.length) :
    List.Perm (sortTags l) l ∧
    (sortTags l).Sorted tagGE ∧
    (∀ c : ℚ, confFilter c (sortTags l) = confFilter c l) ∧
    (finalTags n l).length = n ∧
    (∀ x ∈ (sortTags l).take n, ∀ y ∈ (sortTags l).drop n, tagGE x y) := by
  refine ⟨List.perm_insertionSort tagGE l, List.sorted_insertionSort tagGE l,
    fun c => sortTags_stable c l, ?_, ?_⟩
  · have hlen : (sortTags l).length = l.length := List.length_insertionSort tagGE l
    simp only [finalTags, List.length_map, List.length_take, hlen]
    omega
  · intro x hx y hy
    exact (List.sorted_insertionSort tagGE l).rel_of_mem_take_of_mem_drop hx hy

/-- Witness for C4: the spec's six-candidate example with `maxTags = 5` keeps
exactly five tags. -/
theorem processFile_tag_ranking_witness :
    (finalTags 5 (suggestTags
        ⟨"/s/project-meeting-notes.txt", "project-meeting-notes.txt", "txt", 9,
         ⟨2024, 0, "c", "cl"⟩, ⟨2024, 2, "m", "ml"⟩, .document⟩)).length = 5 :=
  (processFile_tag_ranking _ 5 (by decide)).2.2.2.1

/-! ### C10: every tag list the engine attaches is capped at `maxTags` -/

/-- C10: both the ordinary per-file path and the archive-summary path attach
at most `config.tagging.maxTags` tags to the `ProcessedFile` they produce. -/
theorem engine_tags_capped (cfg : Config) (env : PipelineEnv) (file : FileInfo)
    (opts : ProcessOptions) (children : List ProcessedFile) :
    (processFile cfg env file opts).1.tags.length ≤ cfg.tagging.maxTags ∧
    (processArchiveSummary cfg env file children opts).1.tags.length
      ≤ cfg.tagging.maxTags := by
  constructor
  · show (finalTags cfg.tagging.maxTags (suggestTags file)).length ≤ cfg.tagging.maxTags
    simp only [finalTags, List.length_map, List.length_take]
    omega
  · show (generateArchiveTags cfg file children).length ≤ cfg.tagging.maxTags
    simp only [generateArchiveTags, List.length_take]
    omega

/-! ### C9: document-body truncation at 5000 characters -/

theorem strExt {a b : String} (h : a.data = b.data) : a = b := by
  cases a; cases b; exact congrArg String.mk h

theorem asString_length (l : List Char) : (List.asString l).length = l.length := rfl

theorem asString_data (l : List Char) : (List.asString l).data = l := rfl

theorem joinSep_two (sep a b : String) : joinSep sep [a, b] = a ++ sep ++ b := rfl

theorem joinSep_three (sep a b c : String) :
    joinSep sep [a, b, c] = a ++ sep ++ (b ++ sep ++ c) := rfl

/-- C9: rendering a Document body appends the italic truncation notice after
exactly the first 5000 characters when the content is longer, leaves shorter
content untouched, and renders the italic unable-to-extract notice for `null`
content. -/
theorem generateDocumentContent_truncation (c : String) :
    generateDocumentContent none
      = "## Content\n\n*Unable to extract content from this document.*" ∧
    (5000 < c.length →
      generateDocumentContent (some c)
        = "## Content\n" ++ "\n" ++ jsSubstringTo c 5000 ++ "\n"
            ++ "\n\n*... (content truncated)*" ∧
      (jsSubstringTo c 5000).length = 5000) ∧
    (c.length ≤ 5000 → generateDocumentContent (some c) = "## Content\n" ++ "\n" ++ c) := by
  have e0 : generateDocumentContent (some c)
      = joinSep "\n" (["## Content\n"] ++
          (if c.length > 5000 then [jsSubstringTo c 5000, "\n\n*... (content truncated)*"]
           else [c])) := rfl
  refine ⟨rfl, fun h => ⟨?_, ?_⟩, fun h => ?_⟩
  · rw [e0, if_pos h, List.singleton_append, joinSep_three]
    apply strExt
    simp only [String.data_append, List.append_assoc]
  · have hlen : (jsSubstringTo c 5000).length = min 5000 c.length := by
      show (c.data.take 5000).length = min 5000 c.length
      rw [List.length_take]
      rfl
    rw [hlen]
    omega
  · rw [e0, if_neg (by omega : ¬ c.length > 5000), List.singleton_append, joinSep_two]

/-- Witness for C9 at a 5001-character content. -/
theorem generateDocumentContent_truncation_witness :
    (jsSubstringTo (List.asString (List.replicate 5001 'a')) 5000).length = 5000 :=
  ((generateDocumentContent_truncation (List.asString (List.replicate 5001 'a'))).2.1
    (by rw [asString_length, List.length_replicate]; omega)).2

/-! ### C5: extraction size ceilings -/

/-- C5: the size ceiling is applied before any read: Document/Code/Data files
over 10 MiB yield `null` with an empty I/O trace, Image/Media files over
50 MiB likewise, and an Image/Media file within 50 MiB passes the gate to the
type dispatch. -/
theorem extract_size_ceiling (env : ExtractEnv) (file : FileInfo) :
    ((file.type = .document ∨ file.type = .code ∨ file.type = .data) →
      MAX_FILE_SIZE < file.size → extract env file = (none, [])) ∧
    ((file.type = .image ∨ file.type = .media) →
      (50 * 1024 * 1024 < file.size → extract env file = (none, [])) ∧
      (file.size ≤ 50 * 1024 * 1024 →
        extract env file
          = (match (extractDispatch env file).1 with
             | .ok v => v
             | .error _ => none,
             (extractDispatch env file).2))) := by
  constructor
  · intro ht hs
    have hne : ¬(file.type = .image ∨ file.type = .media) := by
      rcases ht with h | h | h <;> simp [h]
    simp [extract, hne, hs]
  · intro ht
    constructor
    · intro hs
      simp [extract, ht, hs]
    · intro hs
      simp [extract, ht, Nat.not_lt.mpr hs]

/-- Witness for C5: a 10 MiB + 1 byte document is rejected with no read
attempted, through the theorem at a concrete environment. -/
theorem extract_size_ceiling_witness :
    extract
        ⟨fun _ => .error "io", fun _ => .error "io", fun _ => .error "io",
         fun _ => .error "io"⟩
        ⟨"/s/a.txt", "a.txt", "txt", 10 * 1024 * 1024 + 1,
         ⟨2024, 0, "c", "cl"⟩, ⟨2024, 0, "m", "ml"⟩, .document⟩
      = (none, []) :=
  (extract_size_ceiling _ _).1 (Or.inl rfl) (by decide)

/-! ### C6: scanner classification vs. archive-member re-classification -/

/-- The extensions on which the two classification tables disagree. -/
def divergentExts : List String := ["md", "mkv", "swift", "kt", "sql", "bz2", "flac"]

/-- Every extension either table classifies. -/
def allClassifiedExts : List String :=
  processorDocumentExts ++ processorImageExts ++ processorCodeExts ++ processorDataExts ++
  processorMediaExts ++ processorArchiveExts ++ scannerCodeExts ++ scannerDataExts ++
  scannerArchiveExts ++ scannerMediaExts

theorem memAll_procDoc {s : String} (h : s ∈ processorDocumentExts) :
    s ∈ allClassifiedExts := by fin_cases h <;> decide

theorem memAll_procImg {s : String} (h : s ∈ processorImageExts) :
    s ∈ allClassifiedExts := by fin_cases h <;> decide

theorem memAll_procCode {s : String} (h : s ∈ processorCodeExts) :
    s ∈ allClassifiedExts := by fin_cases h <;> decide

theorem memAll_procData {s : String} (h : s ∈ processorDataExts) :
    s ∈ allClassifiedExts := by fin_cases h <;> decide

theorem memAll_procMedia {s : String} (h : s ∈ processorMediaExts) :
    s ∈ allClassifiedExts := by fin_cases h <;> decide

theorem memAll_procArch {s : String} (h : s ∈ processorArchiveExts) :
    s ∈ allClassifiedExts := by fin_cases h <;> decide

theorem memAll_scanDoc {s : String} (h : s ∈ scannerDocumentExts) :
    s ∈ allClassifiedExts := by fin_cases h <;> decide

theorem memAll_scanImg {s : String} (h : s ∈ scannerImageExts) :
    s ∈ allClassifiedExts := by fin_cases h <;> decide

theorem memAll_scanCode {s : String} (h : s ∈ scannerCodeExts) :
    s ∈ allClassifiedExts := by fin_cases h <;> decide

theorem memAll_scanData {s : String} (h : s ∈ scannerDataExts) :
    s ∈ allClassifiedExts := by fin_cases h <;> decide

theorem memAll_scanArch {s : String} (h : s ∈ scannerArchiveExts) :
    s ∈ allClassifiedExts := by fin_cases h <;> decide

theorem memAll_scanMedia {s : String} (h : s ∈ scannerMediaExts) :
    s ∈ allClassifiedExts := by fin_cases h <;> decide

/-- C6 counterexample: the extension `md` is a Document for the archive-member
re-classification but Unknown for the scanner's table, so the two
classification rules differ. -/
theorem classification_tables_differ_on_md :
    determineFileType "md" = FileType.document ∧
    getFileType "md" = FileType.unknown ∧
    determineFileType "md" ≠ getFileType "md" := by decide

/-- C6 amended: outside the seven divergent extensions
(`md`, `mkv`, `swift`, `kt`, `sql`, `bz2`, `flac`), the archive-member
re-classification agrees with the scanner's classification on every
(already-lowercase, as both call sites guarantee) extension. -/
theorem classification_agreement (s : String)
    (hlow : jsToLower s = s) (hdiv : s ∉ divergentExts) :
    determineFileType s = getFileType s := by
  by_cases hin : s ∈ allClassifiedExts
  · simp only [allClassifiedExts, processorDocumentExts, processorImageExts,
      processorCodeExts, processorDataExts, processorMediaExts, processorArchiveExts,
      scannerCodeExts, scannerDataExts, scannerArchiveExts, scannerMediaExts,
      List.mem_append, List.mem_cons, List.not_mem_nil, or_false, or_assoc] at hin
    rcases hin with rfl | rfl | rfl | rfl | rfl | rfl | rfl | rfl | rfl | rfl |
      rfl | rfl | rfl | rfl | rfl | rfl | rfl | rfl | rfl | rfl |
      rfl | rfl | rfl | rfl | rfl | rfl | rfl | rfl | rfl | rfl |
      rfl | rfl | rfl | rfl | rfl | rfl | rfl | rfl | rfl | rfl |
      rfl | rfl | rfl | rfl | rfl | rfl | rfl | rfl | rfl | rfl |
      rfl | rfl | rfl | rfl | rfl | rfl | rfl | rfl | rfl | rfl |
      rfl | rfl | rfl | rfl | rfl | rfl | rfl | rfl | rfl | rfl <;>
      first | decide | exact absurd (by decide) hdiv
  · have h1 : s ∉ processorDocumentExts := fun hm => hin (memAll_procDoc hm)
    have h2 : s ∉ processorImageExts := fun hm => hin (memAll_procImg hm)
    have h3 : s ∉ processorCodeExts := fun hm => hin (memAll_procCode hm)
    have h4 : s ∉ processorDataExts := fun hm => hin (memAll_procData hm)
    have h5 : s ∉ processorMediaExts := fun hm => hin (memAll_procMedia hm)
    have h6 : s ∉ processorArchiveExts := fun hm => hin (memAll_procArch hm)
    have g1 : s ∉ scannerDocumentExts := fun hm => hin (memAll_scanDoc hm)
    have g2 : s ∉ scannerImageExts := fun hm => hin (memAll_scanImg hm)
    have g3 : s ∉ scannerCodeExts := fun hm => hin (memAll_scanCode hm)
    have g4 : s ∉ scannerDataExts := fun hm => hin (memAll_scanData hm)
    have g5 : s ∉ scannerArchiveExts := fun hm => hin (memAll_scanArch hm)
    have g6 : s ∉ scannerMediaExts := fun hm => hin (memAll_scanMedia hm)
    have hd : determineFileType s = .unknown := by
      unfold determineFileType
      rw [hlow]
      simp [h1, h2, h3, h4, h5, h6]
    have hg : getFileType s = .unknown := by
      unfold getFileType
      simp [g1, g2, g3, g4, g5, g6]
    rw [hd, hg]

/-- Witness for the amended C6 at the concrete lowercase extension `txt`. -/
theorem classification_agreement_witness :
    determineFileType "txt" = getFileType "txt" :=
  classification_agreement "txt" (by decide) (by decide)

/-! ### C7: filename-derived tag candidates -/

/-- The tokenization the spec sentence describes, over a given string:
lowercase, split on `.`, `_`, `-` and whitespace, keep tokens strictly longer
than 3 characters. -/
def specTokens (name : String) : List String :=
  ((splitP (fun c => c = '.' ∨ c = '_' ∨ c = '-' ∨ c = ' ') (jsToLower name).data).map
    List.asString).filter fun w => w.length > 3

/-- The claim as stated: the `filename`-source candidates are exactly the
topic tags of the tokens of the file name *without its extension*. -/
def filenameTagClaim (file : FileInfo) : Prop :=
  (suggestTags file).filter (fun t => t.source = "filename")
    = (specTokens (pathParseName file.name)).map mkTopicTag

/-- C7 counterexample: for a file named `data.json` the code also emits
`topic/json` from the extension token, which the stem-only reading forbids
(the two candidate lists do not even have the same length). -/
theorem filename_tokens_counterexample :
    ¬ filenameTagClaim
        ⟨"/s/data.json", "data.json", "json", 5, ⟨2024, 0, "c", "cl"⟩,
         ⟨2024, 0, "m", "ml"⟩, .data⟩ := by
  intro h
  exact absurd (congrArg List.length h) (by decide)

theorem replaceDelims_splitSpace (l : List Char) :
    jsSplitSpace (jsReplaceDelims l)
      = splitP (fun c => c = '.' ∨ c = '_' ∨ c = '-' ∨ c = ' ') l := by
  induction l with
  | nil => rfl
  | cons c cs ih =>
    show splitP (fun x => decide (x = ' '))
        (List.map (fun c => if c = '.' ∨ c = '_' ∨ c = '-' then ' ' else c) (c :: cs)) = _
    have ih' : splitP (fun x => decide (x = ' '))
        (List.map (fun c => if c = '.' ∨ c = '_' ∨ c = '-' then ' ' else c) cs)
        = splitP (fun c => decide (c = '.' ∨ c = '_' ∨ c = '-' ∨ c = ' ')) cs := ih
    by_cases hc3 : c = '.' ∨ c = '_' ∨ c = '-'
    · have hq : c = '.' ∨ c = '_' ∨ c = '-' ∨ c = ' ' := by tauto
      simp only [List.map_cons, if_pos hc3, splitP, ih']
      simp [hq]
    · by_cases hsp : c = ' '
      · have hq : c = '.' ∨ c = '_' ∨ c = '-' ∨ c = ' ' := by tauto
        simp only [List.map_cons, if_neg hc3, splitP, ih']
        simp [hq, hsp]
      · have hq : ¬(c = '.' ∨ c = '_' ∨ c = '-' ∨ c = ' ') := by tauto
        simp only [List.map_cons, if_neg hc3, splitP, ih']
        simp [hsp, hq, hc3]

theorem nameWords_eq_specTokens (s : String) : nameWords s = specTokens s := by
  unfold nameWords specTokens
  rw [replaceDelims_splitSpace]

/-- C7 amended: the `filename`-source candidates are exactly `topic/<token>`
at confidence 0.7 for the tokens strictly longer than 3 characters of the
*full* file name (extension included), lowercased and split on `.`, `_`, `-`
and whitespace. -/
theorem suggestTags_filename_tokens (file : FileInfo) :
    (suggestTags file).filter (fun t => t.source = "filename")
      = (specTokens file.name).map mkTopicTag := by
  show List.filter _ (_ ++ _) = _
  rw [List.filter_append]
  have h1 : List.filter (fun t => decide (t.source = "filename"))
      ([⟨"type/" ++ fileTypeStr file.type, 1, "type"⟩,
        ⟨"format/" ++ file.extension, 1, "type"⟩,
        ⟨"date/" ++ toString file.modifiedAt.year ++ "/" ++
           natPad2 (file.modifiedAt.monthIndex + 1), 1, "context"⟩] : List TagSuggestion)
      = [] := rfl
  rw [h1, List.nil_append, List.filter_map]
  have h2 : List.filter ((fun t => decide (t.source = "filename")) ∘ mkTopicTag)
      (nameWords file.name) = nameWords file.name :=
    List.filter_eq_self.mpr fun a _ => rfl
  rw [h2, nameWords_eq_specTokens]

/-! ### C3: the zip-extraction path guard never escapes the temp directory -/

/-- No two adjacent dots. -/
def noTwoDots (l : List Char) : Prop := l.Chain' fun a b => ¬(a = '.' ∧ b = '.')

theorem removeDotDot_cons_ne {d : Char} (hd : d ≠ '.') (l : List Char) :
    removeDotDot (d :: l) = d :: removeDotDot l := by
  cases l with
  | nil => rfl
  | cons e rest => simp [removeDotDot, hd]

theorem removeDotDot_noTwoDots (l : List Char) : noTwoDots (removeDotDot l) := by
  induction l using removeDotDot.induct with
  | case1 => simp [removeDotDot, noTwoDots]
  | case2 c => simp [removeDotDot, noTwoDots]
  | case3 c d rest h ih => simpa [removeDotDot, h] using ih
  | case4 c d rest h ih =>
    rw [show removeDotDot (c :: d :: rest)
          = c :: removeDotDot (d :: rest) from by simp [removeDotDot, h]]
    rw [noTwoDots, List.chain'_cons']
    refine ⟨?_, ih⟩
    intro e he
    by_cases hc : c = '.'
    · have hdne : d ≠ '.' := fun hdd => h ⟨hc, hdd⟩
      rw [removeDotDot_cons_ne hdne] at he
      simp only [List.head?_cons, Option.mem_def, Option.some.injEq] at he
      subst he
      exact fun hpair => hdne hpair.2
    · exact fun hpair => hc hpair.1

theorem splitP_ne_nil (p : Char → Bool) (l : List Char) : splitP p l ≠ [] := by
  cases l with
  | nil => simp [splitP]
  | cons c cs =>
    by_cases hc : p c = true
    · simp [splitP, hc]
    · cases hx : splitP p cs <;> simp [splitP, hc, hx]

theorem splitP_first_head (p : Char → Bool) (cs : List Char) (t : List Char)
    (ts : List (List Char)) (hx : splitP p cs = t :: ts) :
    ∀ e ∈ t.head?, cs.head? = some e := by
  intro e he
  cases cs with
  | nil =>
    simp only [splitP, List.cons.injEq] at hx
    rw [← hx.1] at he
    simp at he
  | cons c cs' =>
    by_cases hc : p c = true
    · simp only [splitP, if_pos hc, List.cons.injEq] at hx
      rw [← hx.1] at he
      simp at he
    · cases hy : splitP p cs' with
      | nil => exact absurd hy (splitP_ne_nil p cs')
      | cons u us =>
        simp only [splitP, if_neg hc, hy, List.cons.injEq] at hx
        rw [← hx.1] at he
        simp only [List.head?_cons, Option.mem_def, Option.some.injEq] at he
        simp [← he]

theorem splitP_noTwoDots (p : Char → Bool) :
    ∀ l, noTwoDots l → ∀ piece ∈ splitP p l, noTwoDots piece := by
  intro l
  induction l with
  | nil =>
    intro _ piece hp
    simp only [splitP, List.mem_singleton] at hp
    simp [hp, noTwoDots]
  | cons c cs ih =>
    intro hl piece hp
    have hcs : noTwoDots cs := List.Chain'.tail hl
    by_cases hc : p c = true
    · simp only [splitP, if_pos hc, List.mem_cons] at hp
      rcases hp with rfl | hp
      · simp [noTwoDots]
      · exact ih hcs piece hp
    · cases hx : splitP p cs with
      | nil => exact absurd hx (splitP_ne_nil p cs)
      | cons t ts =>
        simp only [splitP, if_neg hc, hx, List.mem_cons] at hp
        rcases hp with rfl | hp
        · rw [noTwoDots, List.chain'_cons']
          refine ⟨?_, ih hcs t (by rw [hx]; exact List.mem_cons_self t ts)⟩
          intro e he
          have hhead := splitP_first_head p cs t ts hx e he
          exact (List.chain'_cons'.mp hl).1 e hhead
        · exact ih hcs piece (by rw [hx]; exact List.mem_cons_of_mem t hp)

theorem sanitize_no_dotdot_seg (s : String) :
    ∀ seg ∈ splitSlash (sanitizeEntryPath s), seg ≠ ".." := by
  intro seg hseg heq
  obtain ⟨piece, hpiece, hval⟩ := List.mem_map.mp hseg
  have hnd : noTwoDots (sanitizeEntryPath s).data :=
    removeDotDot_noTwoDots (stripLeadingSlashes s.data)
  have hpn := splitP_noTwoDots _ _ hnd piece hpiece
  have hdots : piece = ['.', '.'] := by
    have := congrArg String.data (hval.trans heq)
    simpa [asString_data] using this
  rw [hdots] at hpn
  simp [noTwoDots] at hpn

theorem splitP_append_sep (p : Char → Bool) (sep : Char) (hp : p sep = true)
    (xs ys : List Char) : splitP p (xs ++ sep :: ys) = splitP p xs ++ splitP p ys := by
  induction xs with
  | nil => simp [splitP, hp]
  | cons c xs ih =>
    by_cases hc : p c = true
    · simp [splitP, hc, ih]
    · cases hx : splitP p xs with
      | nil => exact absurd hx (splitP_ne_nil p xs)
      | cons t ts => simp [splitP, hc, ih, hx]

theorem splitSlash_append (a b : String) :
    splitSlash (a ++ "/" ++ b) = splitSlash a ++ splitSlash b := by
  unfold splitSlash
  have hd : (a ++ "/" ++ b).data = a.data ++ '/' :: b.data := by
    simp [String.data_append]
  rw [hd, splitP_append_sep _ '/' (by decide), List.map_append]

theorem foldl_normStep_no_dotdot :
    ∀ (ys : List String), (∀ s ∈ ys, s ≠ "..") →
      ∀ acc, ys.foldl normStep acc = acc ++ ys.foldl normStep [] := by
  intro ys
  induction ys with
  | nil => simp
  | cons s ys ih =>
    intro hys acc
    have hs : s ≠ ".." := hys s (List.mem_cons_self s ys)
    have hys' := fun t ht => hys t (List.mem_cons_of_mem s ht)
    simp only [List.foldl_cons]
    by_cases h1 : s = "" ∨ s = "."
    · rw [show normStep acc s = acc from by simp [normStep, h1],
          show normStep [] s = [] from by simp [normStep, h1]]
      exact ih hys' acc
    · rw [show normStep acc s = acc ++ [s] from by simp [normStep, h1, hs],
          show normStep [] s = [s] from by simp [normStep, h1, hs],
          ih hys' (acc ++ [s]), ih hys' [s], List.append_assoc]

/-- C3: the zip-extraction destination paths cannot escape the temp directory:
for every entry path, the Node-normalized segment list of
`path.join(outputDir, sanitized entry path)` extends the normalized segments
of `outputDir` (the sanitized relative part contributes no `..` segment), and
every path actually written comes from an entry whose `type` is absent or
`File` — directory-type entries are never written. -/
theorem extractArchive_path_guard (avail : Bool) (file : FileInfo)
    (entries : List ZipEntry) (outputDir : String) :
    (∀ entryPath : String,
       normSegs (splitSlash outputDir)
         <+: normSegs (splitSlash (outputDir ++ "/" ++ sanitizeEntryPath entryPath))) ∧
    (∀ p ∈ extractArchiveWritten avail file entries outputDir,
       ∃ e, e ∈ entries ∧ (e.entryType = none ∨ e.entryType = some "File") ∧
         p = safeEntryPath outputDir e.path) := by
  constructor
  · intro entryPath
    rw [splitSlash_append]
    show normSegs (splitSlash outputDir)
      <+: List.foldl normStep []
            (splitSlash outputDir ++ splitSlash (sanitizeEntryPath entryPath))
    rw [List.foldl_append,
        foldl_normStep_no_dotdot _ (sanitize_no_dotdot_seg entryPath) _]
    exact List.prefix_append _ _
  · intro p hp
    by_cases hz : jsToLower file.extension = "zip"
    · cases avail with
      | false => simp [extractArchiveWritten, hz] at hp
      | true =>
        simp only [extractArchiveWritten, hz, if_pos, if_true, ite_true] at hp
        obtain ⟨e, he, hval⟩ := List.mem_map.mp hp
        have hef := List.mem_filter.mp he
        refine ⟨e, hef.1, ?_, hval.symm⟩
        simpa using hef.2
    · simp [extractArchiveWritten, hz] at hp

/-- Witness for C3: a hostile `../../etc/passwd` entry of a concrete zip file
lands inside `/tmp/polish-x`, through the theorem at that input. -/
theorem extractArchive_path_guard_witness :
    ∃ e, e ∈ [ZipEntry.mk "../../etc/passwd" (some "File"),
              ZipEntry.mk "docs/" (some "Directory")] ∧
      (e.entryType = none ∨ e.entryType = some "File") ∧
      "/tmp/polish-x/etc/passwd"
        = safeEntryPath "/tmp/polish-x" e.path :=
  (extractArchive_path_guard true
      ⟨"/s/a.zip", "a.zip", "zip", 9, ⟨2024, 0, "c", "cl"⟩, ⟨2024, 0, "m", "ml"⟩, .archive⟩
      [ZipEntry.mk "../../etc/passwd" (some "File"),
       ZipEntry.mk "docs/" (some "Directory")]
      "/tmp/polish-x").2
    "/tmp/polish-x/etc/passwd" (by decide)

end Polish
